import Mathlib

/-!
Verification development for the activity-chain / dwell-time / distance-distribution
fitting pipeline of this repository (`tools/utils.py`, `tools/calcDistributions.py`,
`python_tools/calcDistributions.py`).

The pipeline's pure logic is shallowly embedded: pandas columns become Lean
functions or record fields, DataFrame rows become list elements, null-able values
become `Option`, and the external statistical library calls (scikit-learn
`GaussianMixture.fit`/`bic`, scipy `lognorm.fit`) are abstracted as function
parameters, since only the surrounding selection / search logic lives in this
repository.  Survey distances (the `wegkm` column) are modelled as integers: the
claims at issue concern row selection and unit scaling, not float arithmetic.
-/

namespace Omod

/-! ### 1. Trip Location Labeler (`addLocations` / `addActivities`, inner `getDestByPurp`)

`purposes` and `wids` are the `zweck` and `W_ID` column arrays of the trips table
(sorted by person and leg index); the argument is a row index.  The source checks
membership of the purpose code in `[5, 6, 7, 10]` before it ever reaches the
branch `purposes[j] in [10]`, so that final branch (the backward recursion) is
unreachable; it is nevertheless embedded, including its recursive call to the
previous row.  At row 0 that unreachable recursive call would index `purposes[-1]`
in Python; the embedding returns `none` there, a choice that no reachable input
can observe. -/

def getDestByPurp (purposes wids : Nat → Nat) : Nat → Option Char
  | 0 =>
    if purposes 0 = 1 then some 'W'
    else if purposes 0 = 2 then some 'B'
    else if purposes 0 = 3 then some 'S'
    else if purposes 0 = 4 then some 'P'
    else if purposes 0 = 5 ∨ purposes 0 = 6 ∨ purposes 0 = 7 ∨ purposes 0 = 10 then some 'O'
    else if purposes 0 = 8 then some 'H'
    else if purposes 0 = 10 then
      if wids 0 = 1 then none else none
    else none
  | j + 1 =>
    if purposes (j + 1) = 1 then some 'W'
    else if purposes (j + 1) = 2 then some 'B'
    else if purposes (j + 1) = 3 then some 'S'
    else if purposes (j + 1) = 4 then some 'P'
    else if purposes (j + 1) = 5 ∨ purposes (j + 1) = 6 ∨ purposes (j + 1) = 7 ∨
            purposes (j + 1) = 10 then some 'O'
    else if purposes (j + 1) = 8 then some 'H'
    else if purposes (j + 1) = 10 then
      if wids (j + 1) = 1 then none else getDestByPurp purposes wids j
    else none

/-- Non-recursive purpose-code lookup as the claim describes it, for codes other
than 10: 1→W, 2→B, 3→S, 4→P, 5/6/7→O, 8→H, anything else undefined. -/
def destCodeSpec (p : Nat) : Option Char :=
  if p = 1 then some 'W'
  else if p = 2 then some 'B'
  else if p = 3 then some 'S'
  else if p = 4 then some 'P'
  else if p = 5 ∨ p = 6 ∨ p = 7 then some 'O'
  else if p = 8 then some 'H'
  else none

/-- Modelled from the claim (C1), for comparison with `getDestByPurp`: on purpose
code 10 the destination is inherited by walking backward through the legs of the
person until a non-10 code is found; if the walk reaches leg 1 (or the start of
the table) still on code 10, the destination is undefined. -/
def getDestByPurpSpec (purposes wids : Nat → Nat) : Nat → Option Char
  | 0 => if purposes 0 = 10 then none else destCodeSpec (purposes 0)
  | j + 1 =>
    if purposes (j + 1) = 10 then
      if wids (j + 1) = 1 then none else getDestByPurpSpec purposes wids j
    else destCodeSpec (purposes (j + 1))

/-! ### 2. Gaussian-mixture component search (`getGaussianMixture`)

The fit of an `n`-component mixture to a fixed data matrix is abstracted by its
BIC score `bic n : Int`; the returned model is identified by its component count.
The source loops `for n in range(1, mx_components)`, keeping `(model_best,
bic_best)` and breaking as soon as `bic > bic_best`. -/

def bicLoop (bic : Nat → Int) : List Nat → Option (Nat × Int) → Option Nat
  | [], best => best.map Prod.fst
  | n :: rest, best =>
    match best with
    | some (m, bb) => if bb < bic n then some m else bicLoop bic rest (some (n, bic n))
    | none => bicLoop bic rest (some (n, bic n))

/-- The component count returned by `getGaussianMixture` (utils.py,
python_tools/calcDistributions.py): candidates are `range(1, mxComponents)`,
i.e. `1, ..., mxComponents - 1`. -/
def getGaussianMixture (bic : Nat → Int) (mxComponents : Nat) : Option Nat :=
  bicLoop bic (List.range' 1 (mxComponents - 1)) none

/-- Modelled from the claim (C2), for comparison with `getGaussianMixture`:
the same search but considering component counts up to and including the fixed
maximum `mxComponents`. -/
def getGaussianMixtureClaim (bic : Nat → Int) (mxComponents : Nat) : Option Nat :=
  bicLoop bic (List.range' 1 mxComponents) none

lemma bicLoop_range (bic : Nat → Int) :
    ∀ (len m m' : Nat),
      bicLoop bic (List.range' (m + 1) len) (some (m, bic m)) = some m' →
      m ≤ m' ∧ m' ≤ m + len ∧ (m' < m + len → bic m' < bic (m' + 1)) ∧
        ∀ i, m < i → i ≤ m' → bic i ≤ bic (i - 1) := by
  intro len
  induction len with
  | zero =>
    intro m m' h
    simp only [List.range', bicLoop, Option.map_some', Option.some.injEq] at h
    subst h
    exact ⟨le_refl m, by omega, by omega, fun i h1 h2 => absurd (lt_of_lt_of_le h1 h2) (lt_irrefl m)⟩
  | succ len ih =>
    intro m m' h
    rw [List.range'_succ] at h
    simp only [bicLoop] at h
    by_cases hcmp : bic m < bic (m + 1)
    · rw [if_pos hcmp] at h
      injection h with h
      subst h
      refine ⟨le_refl m, by omega, fun _ => hcmp, ?_⟩
      intro i h1 h2
      exact absurd (lt_of_lt_of_le h1 h2) (lt_irrefl m)
    · rw [if_neg hcmp] at h
      have h' : bicLoop bic (List.range' (m + 1 + 1) len) (some (m + 1, bic (m + 1))) = some m' := by
        simpa using h
      obtain ⟨h1, h2, h3, h4⟩ := ih (m + 1) m' h'
      refine ⟨by omega, by omega, ?_, ?_⟩
      · intro hlt
        exact h3 (by omega)
      · intro i hi1 hi2
        rcases Nat.lt_or_ge i (m + 1) with hlt | hge
        · omega
        · rcases Nat.eq_or_lt_of_le hge with heq | hgt
          · subst heq
            simpa using not_lt.mp hcmp
          · exact h4 i (by omega) hi2

lemma chain_min (f : Nat → Int) (a b : Nat)
    (hc : ∀ i, a < i → i ≤ b → f i ≤ f (i - 1)) :
    ∀ k, a ≤ k → k ≤ b → f b ≤ f k := by
  have aux : ∀ d k, k + d = b → a ≤ k → f b ≤ f k := by
    intro d
    induction d with
    | zero =>
      intro k hk _
      have : k = b := by omega
      subst this
      exact le_refl _
    | succ d ihd =>
      intro k hk hak
      have hstep : f (k + 1) ≤ f k := by
        have := hc (k + 1) (by omega) (by omega)
        simpa using this
      exact le_trans (ihd (k + 1) (by omega) (by omega)) hstep
  intro k hak hkb
  exact aux (b - k) k (by omega) hak

/-! ### Claims C1 and C2 -/

/-- C1 counterexample: with every purpose code equal to 10 and leg indices
1, 2, ..., the claim's backward walk reaches leg 1 still on code 10 and yields
undefined for leg 2; the source instead returns OTHER, because code 10 is
already matched by the `[5, 6, 7, 10]` membership test and the backward-walk
branch is dead code. -/
theorem C1_cex :
    getDestByPurp (fun _ => 10) (fun j => j + 1) 1 = some 'O' ∧
    getDestByPurpSpec (fun _ => 10) (fun j => j + 1) 1 = none ∧
    (some 'O' ≠ (none : Option Char)) := by
  refine ⟨rfl, rfl, by decide⟩

/-- C1 (amended): every trip whose purpose code is 10 — whatever its leg index —
is assigned destination OTHER directly; the backward-walk branch of
`getDestByPurp` is unreachable, so no inheritance from the preceding leg occurs. -/
theorem C1_thm (purposes wids : Nat → Nat) (j : Nat) (h : purposes j = 10) :
    getDestByPurp purposes wids j = some 'O' := by
  cases j with
  | zero => simp [getDestByPurp, h]
  | succ j => simp [getDestByPurp, h]

/-- C1 witness: the amended theorem evaluated at a concrete input. -/
theorem C1_witness :
    (fun _ : Nat => 10) 1 = 10 ∧
    getDestByPurp (fun _ => 10) (fun j => j + 1) 1 = some 'O' :=
  ⟨rfl, C1_thm (fun _ => 10) (fun j => j + 1) 1 rfl⟩

/-- C2 counterexample: with a strictly decreasing BIC sequence and the fixed
maximum of 20, the source loop `for n in range(1, 20)` never fits a 20-component
model: it returns the 19-component model, while the claimed search over
component counts up to the fixed maximum of 20 would return the 20-component
model. -/
theorem C2_cex :
    getGaussianMixture (fun n => -(n : Int)) 20 = some 19 ∧
    getGaussianMixtureClaim (fun n => -(n : Int)) 20 = some 20 ∧
    (some 19 ≠ (some 20 : Option Nat)) := by
  refine ⟨by decide, by decide, by decide⟩

/-- C2 (amended): for every BIC function, the component search starts at 1,
considers component counts only up to `mxComponents - 1` (19 for the fixed
maximum parameter 20), stops as soon as the BIC strictly exceeds the previous
count's BIC while returning the previous model, and the returned model's BIC is
never worse than any candidate fitted before it — in particular not worse than
the candidate whose BIC increase triggered the stop. -/
theorem C2_thm (bic : Nat → Int) (mx m : Nat) (hmx : 2 ≤ mx)
    (h : getGaussianMixture bic mx = some m) :
    (1 ≤ m ∧ m ≤ mx - 1) ∧
    (m < mx - 1 → bic m < bic (m + 1)) ∧
    (∀ k, 1 ≤ k → k ≤ m → bic m ≤ bic k) := by
  unfold getGaussianMixture at h
  have hsplit : mx - 1 = (mx - 2) + 1 := by omega
  rw [hsplit, List.range'_succ] at h
  simp only [bicLoop] at h
  have h' : bicLoop bic (List.range' (1 + 1) (mx - 2)) (some (1, bic 1)) = some m := h
  obtain ⟨h1, h2, h3, h4⟩ := bicLoop_range bic (mx - 2) 1 m h'
  refine ⟨⟨h1, by omega⟩, ?_, ?_⟩
  · intro hlt
    exact h3 (by omega)
  · intro k hk1 hkm
    exact chain_min bic 1 m h4 k hk1 hkm

/-- C2 witness: the amended theorem applied at the strictly decreasing BIC
sequence and the source's fixed maximum of 20. -/
theorem C2_witness :
    (1 ≤ 19 ∧ 19 ≤ 20 - 1) ∧
    (19 < 20 - 1 → (fun n : Nat => -(n : Int)) 19 < (fun n : Nat => -(n : Int)) (19 + 1)) ∧
    (∀ k, 1 ≤ k → k ≤ 19 → (fun n : Nat => -(n : Int)) 19 ≤ (fun n : Nat => -(n : Int)) k) :=
  C2_thm (fun n : Nat => -(n : Int)) 20 19 (by decide) (by decide)

/-! ### 3. Cohort Partitioner (`forAllGrps`)

A person row of the MID persons table, with the columns the partitioner and the
chain aggregator read.  The weekday axis value is `some d` for the codes
`1, ..., 8` (8 = holiday) and `none` for the literal string undefined used by the
source; the other three axes use the source's literal bucket names. -/

structure Person where
  HP_ID_Lok : Nat
  ST_WOTAG : Nat
  feiertag : Nat
  taet : Nat
  multimodal : Nat
  alter_gr : Nat
  mobil : Nat
deriving DecidableEq, Repr

def wdVals : List (Option Nat) := ((List.range' 1 8).map some) ++ [none]

def homVals : List String := ["working", "non_working", "pupil_student", "undefined"]

def mobVals : List String := ["car_user", "car_other", "other", "undefined"]

def ageVals : List String := ["0_40", "40_60", "60_100", "undefined"]

/-- Weekday mask: day `d < 8` matches `ST_WOTAG = d` on a non-holiday, 8 matches
the holiday flag, undefined matches everyone. -/
def wdMask (wd : Option Nat) (p : Person) : Bool :=
  match wd with
  | some w => if w = 8 then p.feiertag == 1 else p.ST_WOTAG == w && p.feiertag == 0
  | none => true

/-- Homogeneity mask over the employment-status code `taet`.  The trailing
`true` is the undefined bucket (the source builds no mask for it beyond
all-true); no other value is ever iterated. -/
def homMask (hom : String) (p : Person) : Bool :=
  if hom = "working" then p.taet == 1
  else if hom = "non_working" then p.taet == 3 || p.taet == 4 || p.taet == 5
  else if hom = "pupil_student" then p.taet == 2
  else true

/-- Mobility mask over the `multimodal` code.  Note code 6 appears in both the
`car_other` bucket `[4, 5, 6]` and the `other` bucket `[2, 3, 6, 8]`. -/
def mobMask (mob : String) (p : Person) : Bool :=
  if mob = "car_user" then p.multimodal == 1
  else if mob = "car_other" then p.multimodal == 4 || p.multimodal == 5 || p.multimodal == 6
  else if mob = "other" then
    p.multimodal == 2 || p.multimodal == 3 || p.multimodal == 6 || p.multimodal == 8
  else true

/-- Age mask over the `alter_gr` bracket code. -/
def ageMask (age : String) (p : Person) : Bool :=
  if age = "0_40" then p.alter_gr == 1 || p.alter_gr == 2 || p.alter_gr == 3
  else if age = "40_60" then p.alter_gr == 4 || p.alter_gr == 5
  else if age = "60_100" then p.alter_gr == 6 || p.alter_gr == 7 || p.alter_gr == 8
  else true

/-- One cohort callback of `forAllGrps`: the four axis values and the matching
person-ID list (`persons[mask].HP_ID_Lok`). -/
def grpIds (persons : List Person) (wd : Option Nat) (hom mob age : String) : List Nat :=
  (persons.filter fun p => wdMask wd p && homMask hom p && mobMask mob p && ageMask age p).map
    Person.HP_ID_Lok

/-- The function `forAllGrps` (utils.py, python_tools/calcDistributions.py): the nested loops
over weekday, homogeneity, mobility and age, producing the sequence of callback
arguments in loop order. -/
def forAllGrps (persons : List Person) :
    List (Option Nat × String × String × String × List Nat) :=
  wdVals.flatMap fun wd =>
    homVals.flatMap fun hom =>
      mobVals.flatMap fun mob =>
        ageVals.map fun age => (wd, hom, mob, age, grpIds persons wd hom mob age)

lemma length_flatMap_const {α β : Type} (l : List α) (f : α → List β) (n : Nat)
    (h : ∀ a ∈ l, (f a).length = n) : (l.flatMap f).length = l.length * n := by
  induction l with
  | nil => simp
  | cons a l ih =>
    simp only [List.flatMap_cons, List.length_append, List.length_cons]
    rw [h a (List.mem_cons_self a l), ih (fun b hb => h b (List.mem_cons_of_mem a hb))]
    ring

lemma forAllGrps_length (persons : List Person) : (forAllGrps persons).length = 576 := by
  unfold forAllGrps
  rw [length_flatMap_const _ _ 64]
  · simp [wdVals]
  · intro wd _
    rw [length_flatMap_const _ _ 16]
    · simp [homVals]
    · intro hom _
      rw [length_flatMap_const _ _ 4]
      · simp [mobVals]
      · intro mob _
        simp [ageVals]

lemma forAllGrps_mem {persons : List Person} {wd : Option Nat} {hom mob age : String}
    {ids : List Nat} (h : (wd, hom, mob, age, ids) ∈ forAllGrps persons) :
    wd ∈ wdVals ∧ hom ∈ homVals ∧ mob ∈ mobVals ∧ age ∈ ageVals ∧
      ids = grpIds persons wd hom mob age := by
  unfold forAllGrps at h
  rw [List.mem_flatMap] at h
  obtain ⟨wd0, hwd, h⟩ := h
  rw [List.mem_flatMap] at h
  obtain ⟨hom0, hhom, h⟩ := h
  rw [List.mem_flatMap] at h
  obtain ⟨mob0, hmob, h⟩ := h
  rw [List.mem_map] at h
  obtain ⟨age0, hage, h⟩ := h
  simp only [Prod.mk.injEq] at h
  obtain ⟨h1, h2, h3, h4, h5⟩ := h
  subst h1; subst h2; subst h3; subst h4; subst h5
  exact ⟨hwd, hhom, hmob, hage, rfl⟩

lemma forAllGrps_complete (persons : List Person) {wd : Option Nat} {hom mob age : String}
    (hwd : wd ∈ wdVals) (hhom : hom ∈ homVals) (hmob : mob ∈ mobVals) (hage : age ∈ ageVals) :
    (wd, hom, mob, age, grpIds persons wd hom mob age) ∈ forAllGrps persons := by
  unfold forAllGrps
  rw [List.mem_flatMap]
  refine ⟨wd, hwd, ?_⟩
  rw [List.mem_flatMap]
  refine ⟨hom, hhom, ?_⟩
  rw [List.mem_flatMap]
  refine ⟨mob, hmob, ?_⟩
  rw [List.mem_map]
  exact ⟨age, hage, rfl⟩

/-! ### Claims C3 and C9 -/

/-- C3 counterexample: the partitioner enumerates 9 weekday values
(`1..7`, `8` = holiday, undefined) and hence `9 * 4 * 4 * 4 = 576` cohort
combinations, not the claimed `8 * 4 * 4 * 4 = 512`. -/
theorem C3_cex : (forAllGrps []).length = 576 ∧ (576 : Nat) ≠ 512 :=
  ⟨forAllGrps_length [], by decide⟩

/-- C3 (amended): `forAllGrps` enumerates exactly the fixed cross-product of
`9 * 4 * 4 * 4 = 576` cohort combinations — the weekday axis ranges over the
nine values `{1..7, 8 = holiday, undefined}` — and for each enumerated
combination the matching person-ID list is the filter by the logical AND of the
four per-axis masks, every undefined axis mask being all-true; every
combination of the four axis value lists is enumerated. -/
theorem C3_thm (persons : List Person) (wd : Option Nat) (hom mob age : String)
    (ids : List Nat) (h : (wd, hom, mob, age, ids) ∈ forAllGrps persons) :
    ids = (persons.filter fun p =>
        wdMask wd p && homMask hom p && mobMask mob p && ageMask age p).map Person.HP_ID_Lok ∧
    (wd ∈ wdVals ∧ hom ∈ homVals ∧ mob ∈ mobVals ∧ age ∈ ageVals) ∧
    (forAllGrps persons).length = 576 ∧
    (∀ p : Person, wdMask none p = true ∧ homMask "undefined" p = true ∧
      mobMask "undefined" p = true ∧ ageMask "undefined" p = true) ∧
    (∀ wd2 ∈ wdVals, ∀ hom2 ∈ homVals, ∀ mob2 ∈ mobVals, ∀ age2 ∈ ageVals,
      (wd2, hom2, mob2, age2, grpIds persons wd2 hom2 mob2 age2) ∈ forAllGrps persons) := by
  obtain ⟨h1, h2, h3, h4, h5⟩ := forAllGrps_mem h
  refine ⟨h5, ⟨h1, h2, h3, h4⟩, forAllGrps_length persons, ?_, ?_⟩
  · intro p
    exact ⟨rfl, rfl, rfl, rfl⟩
  · intro wd2 hw2 hom2 hh2 mob2 hm2 age2 ha2
    exact forAllGrps_complete persons hw2 hh2 hm2 ha2

/-- C3 witness: the amended theorem applied to the empty person table and the
first enumerated cohort combination. -/
theorem C3_witness :
    ([] : List Nat) = (([] : List Person).filter fun p =>
        wdMask (some 1) p && homMask "working" p && mobMask "car_user" p &&
          ageMask "0_40" p).map Person.HP_ID_Lok ∧
    ((some 1 ∈ wdVals) ∧ "working" ∈ homVals ∧ "car_user" ∈ mobVals ∧ "0_40" ∈ ageVals) ∧
    (forAllGrps []).length = 576 ∧
    (∀ p : Person, wdMask none p = true ∧ homMask "undefined" p = true ∧
      mobMask "undefined" p = true ∧ ageMask "undefined" p = true) ∧
    (∀ wd2 ∈ wdVals, ∀ hom2 ∈ homVals, ∀ mob2 ∈ mobVals, ∀ age2 ∈ ageVals,
      (wd2, hom2, mob2, age2, grpIds [] wd2 hom2 mob2 age2) ∈ forAllGrps []) :=
  C3_thm [] (some 1) "working" "car_user" "0_40" [] (by decide)

/-- C9 (confirmed): a person whose multimodal code is 6 satisfies both the
`car_other` mask (`[4, 5, 6]`) and the `other` mask (`[2, 3, 6, 8]`), so the
non-undefined mobility buckets overlap and such a person's ID appears in the
matching sets of both cohorts that differ only in that axis value. -/
theorem C9_thm (persons : List Person) (p : Person) (hp : p ∈ persons)
    (h6 : p.multimodal = 6) (wd : Option Nat) (hom age : String) (ids1 ids2 : List Nat)
    (h1 : (wd, hom, "car_other", age, ids1) ∈ forAllGrps persons)
    (h2 : (wd, hom, "other", age, ids2) ∈ forAllGrps persons)
    (hwd : wdMask wd p = true) (hhom : homMask hom p = true) (hage : ageMask age p = true) :
    mobMask "car_other" p = true ∧ mobMask "other" p = true ∧
    p.HP_ID_Lok ∈ ids1 ∧ p.HP_ID_Lok ∈ ids2 := by
  have hco : mobMask "car_other" p = true := by simp [mobMask, h6]
  have hot : mobMask "other" p = true := by simp [mobMask, h6]
  obtain ⟨_, _, _, _, hids1⟩ := forAllGrps_mem h1
  obtain ⟨_, _, _, _, hids2⟩ := forAllGrps_mem h2
  subst hids1; subst hids2
  refine ⟨hco, hot, ?_, ?_⟩
  · exact List.mem_map.mpr ⟨p, List.mem_filter.mpr ⟨hp, by simp [hwd, hhom, hage, hco]⟩, rfl⟩
  · exact List.mem_map.mpr ⟨p, List.mem_filter.mpr ⟨hp, by simp [hwd, hhom, hage, hot]⟩, rfl⟩

/-- C9 witness: the theorem applied to a concrete person with multimodal code 6
in the undefined weekday / homogeneity / age cohorts. -/
theorem C9_witness :
    mobMask "car_other" ⟨7, 1, 0, 1, 6, 1, 1⟩ = true ∧
    mobMask "other" ⟨7, 1, 0, 1, 6, 1, 1⟩ = true ∧
    (Person.HP_ID_Lok ⟨7, 1, 0, 1, 6, 1, 1⟩) ∈
      grpIds [⟨7, 1, 0, 1, 6, 1, 1⟩] none "undefined" "car_other" "undefined" ∧
    (Person.HP_ID_Lok ⟨7, 1, 0, 1, 6, 1, 1⟩) ∈
      grpIds [⟨7, 1, 0, 1, 6, 1, 1⟩] none "undefined" "other" "undefined" :=
  C9_thm [⟨7, 1, 0, 1, 6, 1, 1⟩] ⟨7, 1, 0, 1, 6, 1, 1⟩ (by decide) rfl none "undefined"
    "undefined" _ _ (forAllGrps_complete _ (by decide) (by decide) (by decide) (by decide))
    (forAllGrps_complete _ (by decide) (by decide) (by decide) (by decide)) rfl rfl rfl

/-! ### 4. Distance Distribution Fitter (`getDistanceDists`, python_tools/calcDistributions.py)

A trip row with the columns the fitter reads.  `wegkm` is the recorded distance
in kilometres (modelled as an integer), `regio` the region-type code
(`RegioStaR7`, absent for unmapped grid cells). -/

structure Trip4 where
  wegkm : Int
  startLoc : Option Char
  destLoc : Option Char
  regio : Option Nat
deriving DecidableEq, Repr

/-- A value of the `groups` dictionary of `getDistanceDists`.  The source writes
`"any_other": (trips, None, "O")` — a 3-tuple whose first element is the whole
trips DataFrame — so a tuple element is a location letter, `None`, or the trips
table itself. -/
inductive FV where
  | loc : Char → FV
  | null : FV
  | table : FV
deriving DecidableEq, Repr

/-- The `groups` dictionary exactly as written in the source: note the
`any_other` entry is the 3-tuple `(trips, None, "O")`. -/
def groupsTable : List (String × List FV) :=
  [("home_work", [FV.loc 'H', FV.loc 'W']),
   ("home_school", [FV.loc 'H', FV.loc 'S']),
   ("any_shopping", [FV.null, FV.loc 'P']),
   ("any_other", [FV.table, FV.null, FV.loc 'O'])]

/-- Whether a location column value passes the comparison against a tuple
element.  Comparing the column against the whole trips table (`FV.table`)
matches no row: the pandas comparison of the `StartLoc` Series against the
misaligned DataFrame yields no `True` entry. -/
def fvMatches (s : Option Char) : FV → Bool
  | FV.loc c => s == some c
  | FV.null => true
  | FV.table => false

/-- One element of the activities tuple applied as a filter: the source only
applies the comparison when the element `is not None`. -/
def actFilter (v : Option FV) (s : Option Char) : Bool :=
  match v with
  | some FV.null => true
  | some v => fvMatches s v
  | none => true

/-- The row-selection mask of `getDistanceDists` for one activities tuple:
distance below 1000 km, then the `activities[0]` filter on `StartLoc` and the
`activities[1]` filter on `DestLoc`. -/
def selMask (acts : List FV) (t : Trip4) : Bool :=
  decide (t.wegkm < 1000) && actFilter acts[0]? t.startLoc && actFilter acts[1]? t.destLoc

/-- The region keys iterated for one trips table: `0` (no region filter)
followed by the distinct non-null region codes in ascending order. -/
def regionsOf (trips : List Trip4) : List Nat :=
  0 :: List.insertionSort (fun a b => a ≤ b) (trips.filterMap Trip4.regio).dedup

/-- The data vector handed to `scipy.stats.lognorm.fit` for one activities tuple
and one region key: the masked rows' distances converted to metres. -/
def selData (trips : List Trip4) (acts : List FV) (region : Nat) : List Int :=
  ((trips.filter fun t =>
      selMask acts t && (region == 0 || t.regio == some region))).map fun t => t.wegkm * 1000

/-- The function `getDistanceDists` with the library fit abstracted: `fit` maps a data vector
to the `(shape, scale)` pair of the lognormal maximum-likelihood fit with
location fixed at 0.  The result maps each activity-pair name to the list of
`(integer region key, (distribution tag, shape, scale))` entries. -/
def getDistanceDists (fit : List Int → Int × Int) (trips : List Trip4) :
    List (String × List (Nat × (String × Int × Int))) :=
  groupsTable.map fun g =>
    (g.1, (regionsOf trips).map fun region =>
      (region, ("lognorm", (fit (selData trips g.2 region)).1, (fit (selData trips g.2 region)).2)))

/-- Modelled from the claim (C4), for comparison with `selData`: the four
activity-pair filters as the claim states them, `any_other` filtering only on
destination OTHER. -/
def claimFilterOf : String → Option Char × Option Char
  | "home_work" => (some 'H', some 'W')
  | "home_school" => (some 'H', some 'S')
  | "any_shopping" => (none, some 'P')
  | _ => (none, some 'O')

/-- Modelled from the claim (C4): one component of the claimed activity-pair
filter — a location letter must match, an absent filter matches any row. -/
def claimActFilter (v : Option Char) (s : Option Char) : Bool :=
  match v with
  | some c => s == some c
  | none => true

/-- Modelled from the claim (C4): the data selected for one activity pair and
one region key — trips matching the pair filter and the region filter with
distance below 1000 km, converted to metres. -/
def claimSelData (trips : List Trip4) (f : Option Char × Option Char) (region : Nat) :
    List Int :=
  ((trips.filter fun t =>
      decide (t.wegkm < 1000) && claimActFilter f.1 t.startLoc && claimActFilter f.2 t.destLoc &&
        (region == 0 || t.regio == some region))).map fun t => t.wegkm * 1000

/-- C4: the `any_other` entry of the `groups` dictionary in
`python_tools/calcDistributions.py` is the 3-tuple `(trips, None, "O")`, so
`activities[0]` is the trips table and `activities[1]` is `None`: the claimed
destination-OTHER filter is never applied and the start-location comparison
against the misaligned table selects no row.  At a concrete trips table holding
one 5 km trip ending at OTHER, the code's `any_other` selection is empty while
the claimed selection is the single distance 5000 m. -/
theorem C4_thm :
    ("any_other", [FV.table, FV.null, FV.loc 'O']) ∈ groupsTable ∧
    selData [⟨5, some 'H', some 'O', none⟩] [FV.table, FV.null, FV.loc 'O'] 0 = [] ∧
    claimSelData [⟨5, some 'H', some 'O', none⟩] (claimFilterOf "any_other") 0 = [5000] ∧
    ([] : List Int) ≠ [5000] := by
  refine ⟨by decide, by decide, by decide, by decide⟩

/-! ### 5. Time Resolver (`processTime` / `addTime`)

A trip row with the raw timing columns: start hour/minute (`W_SZS`/`W_SZM`),
arrival hour/minute (`W_AZS`/`W_AZM`), the next-day flag (`W_FOLGETAG`) and
the imputed duration (`wegmin_imp1`).  Hour or minute values of 80 and above
are the survey's missing-value sentinels. -/

structure TripRaw where
  HP_ID_Lok : Nat
  W_ID : Nat
  W_SZS : Nat
  W_SZM : Nat
  W_AZS : Nat
  W_AZM : Nat
  W_FOLGETAG : Nat
  wegmin_imp1 : Int
deriving DecidableEq, Repr

/-- Per-person leg count (`W_count = trips.groupby('HP_ID_Lok')['W_ID'].count()`). -/
def wCount (trips : List TripRaw) (p : Nat) : Nat :=
  (trips.filter fun t => t.HP_ID_Lok == p).length

def hasStart (t : TripRaw) : Bool := t.W_SZS < 80 && t.W_SZM < 80

def hasStop (t : TripRaw) : Bool := t.W_AZS < 80 && t.W_AZM < 80

def rawStart (t : TripRaw) : Int := t.W_SZS * 60 + t.W_SZM

def rawStop (t : TripRaw) : Int := t.W_AZS * 60 + t.W_AZM + t.W_FOLGETAG * 1440

/-- The `start` column after the imputation block: recorded minutes when
present, `stop - duration` when only the stop is recorded, missing otherwise. -/
def startVal (t : TripRaw) : Option Int :=
  if hasStart t then some (rawStart t)
  else if hasStop t then some (rawStop t - t.wegmin_imp1)
  else none

/-- The `stop` column after the imputation block: recorded minutes (plus 1440
on a next-day arrival) when present, `start + duration` when only the start is
recorded, missing otherwise. -/
def stopVal (t : TripRaw) : Option Int :=
  if hasStop t then some (rawStop t)
  else if hasStart t then some (rawStart t + t.wegmin_imp1)
  else none

/-- A leg with neither start nor stop recorded. -/
def noInfo (t : TripRaw) : Bool := !hasStart t && !hasStop t

/-- Person `p` is in `dropPersons`: some leg of `p` has no timing information
and is not the `W_ID = W_count` leg. -/
def dropPerson (trips : List TripRaw) (p : Nat) : Bool :=
  trips.any fun u => u.HP_ID_Lok == p && noInfo u && u.W_ID != wCount trips p

/-- A row survives `trips.drop(at1.union(at2))`: it is neither an
uninformative last leg (`at1`) nor a leg of a dropped person (`at2`). -/
def keepTrip (trips : List TripRaw) (t : TripRaw) : Bool :=
  !(noInfo t && t.W_ID == wCount trips t.HP_ID_Lok) && !dropPerson trips t.HP_ID_Lok

/-- The function `processTime`: the rows that survive the drop, in their original order.
The `start`/`stop` columns of a surviving row are `startVal`/`stopVal`. -/
def processTime (trips : List TripRaw) : List TripRaw :=
  trips.filter (keepTrip trips)

/-- The per-person `W_ID` column values, in row order. -/
def personWids (trips : List TripRaw) (p : Nat) : List Nat :=
  (trips.filter fun t => t.HP_ID_Lok == p).map TripRaw.W_ID

/-- The data-model invariant of the spec: within every person present in the
table, the leg indices are exactly `1, ..., count` (contiguous, starting at 1). -/
def Contig (trips : List TripRaw) : Prop :=
  ∀ p ∈ trips.map TripRaw.HP_ID_Lok, (personWids trips p).Perm (List.range' 1 (wCount trips p))

instance : DecidablePred (Contig) := fun trips => by
  unfold Contig
  infer_instance

lemma mem_personWids {trips : List TripRaw} {t : TripRaw} (ht : t ∈ trips) :
    t.W_ID ∈ personWids trips t.HP_ID_Lok := by
  unfold personWids
  exact List.mem_map.mpr ⟨t, List.mem_filter.mpr ⟨ht, by simp⟩, rfl⟩

lemma wid_bounds {trips : List TripRaw} (hc : Contig trips) {t : TripRaw} (ht : t ∈ trips) :
    1 ≤ t.W_ID ∧ t.W_ID ≤ wCount trips t.HP_ID_Lok := by
  have hp : t.HP_ID_Lok ∈ trips.map TripRaw.HP_ID_Lok := List.mem_map.mpr ⟨t, ht, rfl⟩
  have h := (hc _ hp).mem_iff.mp (mem_personWids ht)
  rw [List.mem_range'_1] at h
  omega

lemma exists_wid {trips : List TripRaw} (hc : Contig trips) {t : TripRaw} (ht : t ∈ trips)
    (k : Nat) (h1 : 1 ≤ k) (h2 : k ≤ wCount trips t.HP_ID_Lok) :
    ∃ u ∈ trips, u.HP_ID_Lok = t.HP_ID_Lok ∧ u.W_ID = k := by
  have hp : t.HP_ID_Lok ∈ trips.map TripRaw.HP_ID_Lok := List.mem_map.mpr ⟨t, ht, rfl⟩
  have hk : k ∈ personWids trips t.HP_ID_Lok := by
    refine (hc _ hp).mem_iff.mpr ?_
    rw [List.mem_range'_1]
    omega
  unfold personWids at hk
  rw [List.mem_map] at hk
  obtain ⟨u, hu, huk⟩ := hk
  rw [List.mem_filter] at hu
  exact ⟨u, hu.1, by simpa using hu.2, huk⟩

lemma nodup_personWids {trips : List TripRaw} (hc : Contig trips) {p : Nat}
    (hp : p ∈ trips.map TripRaw.HP_ID_Lok) : (personWids trips p).Nodup :=
  (hc p hp).nodup_iff.mpr (List.nodup_range' 1 (wCount trips p))

lemma mem_processTime {trips : List TripRaw} {t : TripRaw} :
    t ∈ processTime trips ↔ t ∈ trips ∧ keepTrip trips t = true := List.mem_filter

lemma dropPerson_iff {trips : List TripRaw} {p : Nat} :
    dropPerson trips p = true ↔
      ∃ u ∈ trips, u.HP_ID_Lok = p ∧ noInfo u = true ∧ u.W_ID ≠ wCount trips p := by
  unfold dropPerson
  rw [List.any_eq_true]
  constructor
  · rintro ⟨u, hu, hcond⟩
    simp only [Bool.and_eq_true, beq_iff_eq, bne_iff_ne, ne_eq] at hcond
    exact ⟨u, hu, hcond.1.1, hcond.1.2, hcond.2⟩
  · rintro ⟨u, hu, h1, h2, h3⟩
    exact ⟨u, hu, by simp [h1, h2, h3]⟩

lemma keep_iff {trips : List TripRaw} {t : TripRaw} :
    keepTrip trips t = true ↔
      ¬(noInfo t = true ∧ t.W_ID = wCount trips t.HP_ID_Lok) ∧
        dropPerson trips t.HP_ID_Lok = false := by
  unfold keepTrip
  rcases hni : noInfo t <;> rcases hdp : dropPerson trips t.HP_ID_Lok <;>
    simp [hni, hdp]

/-! ### Claim C5 -/

/-- C5 counterexample: a person with a first leg lacking both times and a
second (last) leg with a recorded start but no stop.  The second leg has
exactly one of start/stop missing — the claim says such a leg is imputed and
never dropped — yet `processTime` drops the whole person, second leg included,
because the first uninformative leg is not the last one. -/
theorem C5_cex :
    hasStart ⟨1, 2, 8, 0, 99, 99, 0, 30⟩ = true ∧
    hasStop ⟨1, 2, 8, 0, 99, 99, 0, 30⟩ = false ∧
    (⟨1, 2, 8, 0, 99, 99, 0, 30⟩ : TripRaw) ∈
      [⟨1, 1, 99, 99, 99, 99, 0, 30⟩, ⟨1, 2, 8, 0, 99, 99, 0, 30⟩] ∧
    processTime [⟨1, 1, 99, 99, 99, 99, 0, 30⟩, ⟨1, 2, 8, 0, 99, 99, 0, 30⟩] = [] := by
  refine ⟨by decide, by decide, by decide, by decide⟩

/-- C5 (amended): given the spec's leg-index invariant, a leg lacking both
times is always excluded, and `W_ID = W_count` characterises being the last leg
of its person; a both-missing non-last leg causes every leg of its person to be
dropped, while a both-missing last leg whose person has no other both-missing
leg is dropped alone (all other legs of the person are kept); a leg with
exactly one of start/stop missing is imputed (`stop = start + duration`, resp.
`start = stop - duration`) and is dropped exactly when its whole person is
dropped because of some other leg lacking both times — exclusion is always
row-level or person-level. -/
theorem C5_thm (trips : List TripRaw) (hc : Contig trips) (t : TripRaw) (ht : t ∈ trips) :
    ((t.W_ID = wCount trips t.HP_ID_Lok) ↔
      ∀ u ∈ trips, u.HP_ID_Lok = t.HP_ID_Lok → u.W_ID ≤ t.W_ID) ∧
    (noInfo t = true → t ∉ processTime trips) ∧
    (noInfo t = true → t.W_ID ≠ wCount trips t.HP_ID_Lok →
      ∀ u ∈ trips, u.HP_ID_Lok = t.HP_ID_Lok → u ∉ processTime trips) ∧
    (noInfo t = true → t.W_ID = wCount trips t.HP_ID_Lok →
      (∀ u ∈ trips, u.HP_ID_Lok = t.HP_ID_Lok → noInfo u = true → u = t) →
      ∀ u ∈ trips, u.HP_ID_Lok = t.HP_ID_Lok → u ≠ t → u ∈ processTime trips) ∧
    (hasStart t = true → hasStop t = false →
      startVal t = some (rawStart t) ∧ stopVal t = some (rawStart t + t.wegmin_imp1) ∧
      (t ∈ processTime trips ↔ dropPerson trips t.HP_ID_Lok = false)) ∧
    (hasStop t = true → hasStart t = false →
      startVal t = some (rawStop t - t.wegmin_imp1) ∧ stopVal t = some (rawStop t) ∧
      (t ∈ processTime trips ↔ dropPerson trips t.HP_ID_Lok = false)) := by
  refine ⟨?_, ?_, ?_, ?_, ?_, ?_⟩
  · -- `W_ID = W_count` characterises the last leg
    constructor
    · intro hlast u hu hup
      have := (wid_bounds hc hu).2
      rw [hup] at this
      omega
    · intro hmax
      by_contra hne
      have hb := wid_bounds hc ht
      have hlt : t.W_ID < wCount trips t.HP_ID_Lok := by omega
      obtain ⟨u, hu, hup, huw⟩ :=
        exists_wid hc ht (wCount trips t.HP_ID_Lok) (by omega) (le_refl _)
      have := hmax u hu hup
      omega
  · -- a both-missing leg never survives
    intro hni hmem
    rw [mem_processTime, keep_iff] at hmem
    obtain ⟨_, ⟨hnot, hdp⟩⟩ := hmem
    by_cases hlast : t.W_ID = wCount trips t.HP_ID_Lok
    · exact hnot ⟨hni, hlast⟩
    · have : dropPerson trips t.HP_ID_Lok = true :=
        dropPerson_iff.mpr ⟨t, ht, rfl, hni, hlast⟩
      rw [hdp] at this
      exact Bool.false_ne_true this
  · -- a both-missing non-last leg drops the whole person
    intro hni hne u hu hup hmem
    rw [mem_processTime, keep_iff] at hmem
    have : dropPerson trips u.HP_ID_Lok = true := by
      rw [hup]
      exact dropPerson_iff.mpr ⟨t, ht, rfl, hni, hne⟩
    rw [hmem.2.2] at this
    exact Bool.false_ne_true this
  · -- a both-missing last leg with no other both-missing sibling is dropped alone
    intro hni hlast honly u hu hup hune
    rw [mem_processTime, keep_iff]
    refine ⟨hu, ?_, ?_⟩
    · rintro ⟨huni, _⟩
      exact hune (honly u hu hup huni)
    · rw [Bool.eq_false_iff]
      intro hdrop
      obtain ⟨v, hv, hvp, hvni, hvne⟩ := dropPerson_iff.mp hdrop
      have hvt : v = t := honly v hv (hup ▸ hvp) hvni
      rw [hvt] at hvne
      rw [hup] at hvne
      exact hvne hlast
  · -- start recorded, stop missing: imputed, dropped only with its person
    intro hs hns
    have hnif : noInfo t = false := by simp [noInfo, hs]
    refine ⟨by simp [startVal, hs], by simp [stopVal, hs, hns], ?_⟩
    rw [mem_processTime, keep_iff]
    constructor
    · rintro ⟨_, _, hdp⟩
      exact hdp
    · intro hdp
      exact ⟨ht, by simp [hnif], hdp⟩
  · -- stop recorded, start missing: imputed, dropped only with its person
    intro hs hns
    have hnif : noInfo t = false := by simp [noInfo, hs]
    refine ⟨by simp [startVal, hs, hns], by simp [stopVal, hs], ?_⟩
    rw [mem_processTime, keep_iff]
    constructor
    · rintro ⟨_, _, hdp⟩
      exact hdp
    · intro hdp
      exact ⟨ht, by simp [hnif], hdp⟩

/-- C5 witness: the amended theorem applied to a one-leg person with full
timing information. -/
theorem C5_witness :
    ((TripRaw.W_ID ⟨1, 1, 7, 0, 8, 0, 0, 30⟩ =
        wCount [⟨1, 1, 7, 0, 8, 0, 0, 30⟩] (TripRaw.HP_ID_Lok ⟨1, 1, 7, 0, 8, 0, 0, 30⟩)) ↔
      ∀ u ∈ [(⟨1, 1, 7, 0, 8, 0, 0, 30⟩ : TripRaw)],
        u.HP_ID_Lok = TripRaw.HP_ID_Lok ⟨1, 1, 7, 0, 8, 0, 0, 30⟩ →
          u.W_ID ≤ TripRaw.W_ID ⟨1, 1, 7, 0, 8, 0, 0, 30⟩) ∧
    (noInfo ⟨1, 1, 7, 0, 8, 0, 0, 30⟩ = true →
      (⟨1, 1, 7, 0, 8, 0, 0, 30⟩ : TripRaw) ∉ processTime [⟨1, 1, 7, 0, 8, 0, 0, 30⟩]) ∧
    (noInfo ⟨1, 1, 7, 0, 8, 0, 0, 30⟩ = true →
      TripRaw.W_ID ⟨1, 1, 7, 0, 8, 0, 0, 30⟩ ≠
        wCount [⟨1, 1, 7, 0, 8, 0, 0, 30⟩] (TripRaw.HP_ID_Lok ⟨1, 1, 7, 0, 8, 0, 0, 30⟩) →
      ∀ u ∈ [(⟨1, 1, 7, 0, 8, 0, 0, 30⟩ : TripRaw)],
        u.HP_ID_Lok = TripRaw.HP_ID_Lok ⟨1, 1, 7, 0, 8, 0, 0, 30⟩ →
          u ∉ processTime [⟨1, 1, 7, 0, 8, 0, 0, 30⟩]) ∧
    (noInfo ⟨1, 1, 7, 0, 8, 0, 0, 30⟩ = true →
      TripRaw.W_ID ⟨1, 1, 7, 0, 8, 0, 0, 30⟩ =
        wCount [⟨1, 1, 7, 0, 8, 0, 0, 30⟩] (TripRaw.HP_ID_Lok ⟨1, 1, 7, 0, 8, 0, 0, 30⟩) →
      (∀ u ∈ [(⟨1, 1, 7, 0, 8, 0, 0, 30⟩ : TripRaw)],
        u.HP_ID_Lok = TripRaw.HP_ID_Lok ⟨1, 1, 7, 0, 8, 0, 0, 30⟩ → noInfo u = true →
          u = ⟨1, 1, 7, 0, 8, 0, 0, 30⟩) →
      ∀ u ∈ [(⟨1, 1, 7, 0, 8, 0, 0, 30⟩ : TripRaw)],
        u.HP_ID_Lok = TripRaw.HP_ID_Lok ⟨1, 1, 7, 0, 8, 0, 0, 30⟩ →
          u ≠ ⟨1, 1, 7, 0, 8, 0, 0, 30⟩ → u ∈ processTime [⟨1, 1, 7, 0, 8, 0, 0, 30⟩]) ∧
    (hasStart ⟨1, 1, 7, 0, 8, 0, 0, 30⟩ = true → hasStop ⟨1, 1, 7, 0, 8, 0, 0, 30⟩ = false →
      startVal ⟨1, 1, 7, 0, 8, 0, 0, 30⟩ = some (rawStart ⟨1, 1, 7, 0, 8, 0, 0, 30⟩) ∧
      stopVal ⟨1, 1, 7, 0, 8, 0, 0, 30⟩ =
        some (rawStart ⟨1, 1, 7, 0, 8, 0, 0, 30⟩ + TripRaw.wegmin_imp1 ⟨1, 1, 7, 0, 8, 0, 0, 30⟩) ∧
      ((⟨1, 1, 7, 0, 8, 0, 0, 30⟩ : TripRaw) ∈ processTime [⟨1, 1, 7, 0, 8, 0, 0, 30⟩] ↔
        dropPerson [⟨1, 1, 7, 0, 8, 0, 0, 30⟩] (TripRaw.HP_ID_Lok ⟨1, 1, 7, 0, 8, 0, 0, 30⟩) = false)) ∧
    (hasStop ⟨1, 1, 7, 0, 8, 0, 0, 30⟩ = true → hasStart ⟨1, 1, 7, 0, 8, 0, 0, 30⟩ = false →
      startVal ⟨1, 1, 7, 0, 8, 0, 0, 30⟩ =
        some (rawStop ⟨1, 1, 7, 0, 8, 0, 0, 30⟩ - TripRaw.wegmin_imp1 ⟨1, 1, 7, 0, 8, 0, 0, 30⟩) ∧
      stopVal ⟨1, 1, 7, 0, 8, 0, 0, 30⟩ = some (rawStop ⟨1, 1, 7, 0, 8, 0, 0, 30⟩) ∧
      ((⟨1, 1, 7, 0, 8, 0, 0, 30⟩ : TripRaw) ∈ processTime [⟨1, 1, 7, 0, 8, 0, 0, 30⟩] ↔
        dropPerson [⟨1, 1, 7, 0, 8, 0, 0, 30⟩] (TripRaw.HP_ID_Lok ⟨1, 1, 7, 0, 8, 0, 0, 30⟩) = false)) :=
  C5_thm [⟨1, 1, 7, 0, 8, 0, 0, 30⟩] (by decide) ⟨1, 1, 7, 0, 8, 0, 0, 30⟩ (by decide)

/-! ### `addTime`: re-sort by (person, leg index), then the dwell-time pass -/

/-- The sort key order of `trips.sort_values(["HP_ID_Lok", "W_ID"])`. -/
def tripLe (a b : TripRaw) : Prop :=
  a.HP_ID_Lok < b.HP_ID_Lok ∨ (a.HP_ID_Lok = b.HP_ID_Lok ∧ a.W_ID ≤ b.W_ID)

instance : DecidableRel tripLe := fun a b => by
  unfold tripLe
  infer_instance

instance : IsTotal TripRaw tripLe :=
  ⟨by intro a b; unfold tripLe; omega⟩

instance : IsTrans TripRaw tripLe :=
  ⟨by intro a b c; unfold tripLe; omega⟩

def sortTrips (l : List TripRaw) : List TripRaw := List.insertionSort tripLe l

/-- The dwell time of one row given the previous row of the sorted table:
`start` for a first leg (`W_ID = 1`); otherwise `start - stop[previous]`,
replaced by null when negative.  The `none` fallbacks model situations the
sorted, cleaned table never presents to the loop (a missing previous row or
missing times). -/
def dwellOf (prev : Option TripRaw) (t : TripRaw) : Option Int :=
  if t.W_ID = 1 then startVal t
  else
    match prev with
    | none => none
    | some u =>
      match startVal t, stopVal u with
      | some s, some q => if s - q < 0 then none else some (s - q)
      | _, _ => none

/-- The dwell-time loop of `addTime`, pairing each row with its dwell time. -/
def dwellPass (prev : Option TripRaw) : List TripRaw → List (TripRaw × Option Int)
  | [] => []
  | t :: rest => (t, dwellOf prev t) :: dwellPass (some t) rest

/-- The function `addTime`: timing cleanup, re-sort by `(HP_ID_Lok, W_ID)`, then the
dwell-time pass. -/
def addTime (trips : List TripRaw) : List (TripRaw × Option Int) :=
  dwellPass none (sortTrips (processTime trips))

lemma dwellPass_map_fst : ∀ (prev : Option TripRaw) (l : List TripRaw),
    (dwellPass prev l).map Prod.fst = l := by
  intro prev l
  induction l generalizing prev with
  | nil => rfl
  | cons t rest ih => simp [dwellPass, ih]

lemma dwellPass_decomp :
    ∀ (l₁ : List (TripRaw × Option Int)) (prev : Option TripRaw) (l : List TripRaw)
      (t : TripRaw) (d : Option Int) (l₂ : List (TripRaw × Option Int)),
      dwellPass prev l = l₁ ++ (t, d) :: l₂ →
      l = l₁.map Prod.fst ++ t :: l₂.map Prod.fst ∧
      (l₁ = [] → d = dwellOf prev t) ∧
      (∀ l₁h u du, l₁ = l₁h ++ [(u, du)] → d = dwellOf (some u) t) := by
  intro l₁
  induction l₁ with
  | nil =>
    intro prev l t d l₂ h
    cases l with
    | nil => simp [dwellPass] at h
    | cons x xs =>
      simp only [dwellPass, List.nil_append] at h
      obtain ⟨hx, hrest⟩ := List.cons.injEq .. ▸ h
      obtain ⟨hx1, hx2⟩ := Prod.mk.injEq .. ▸ hx
      subst hx1
      refine ⟨?_, ?_, ?_⟩
      · have := dwellPass_map_fst (some x) xs
        rw [hrest] at this
        simpa using this.symm
      · intro _
        exact hx2.symm
      · intro l₁h u du habs
        exact absurd habs.symm (List.append_ne_nil_of_right_ne_nil l₁h (by simp))
  | cons e l₁t ih =>
    intro prev l t d l₂ h
    cases l with
    | nil => simp [dwellPass] at h
    | cons x xs =>
      simp only [dwellPass, List.cons_append] at h
      obtain ⟨hx, hrest⟩ := List.cons.injEq .. ▸ h
      obtain ⟨h1, h2, h3⟩ := ih (some x) xs t d l₂ hrest
      refine ⟨?_, ?_, ?_⟩
      · rw [← hx]
        simp [h1]
      · intro habs
        exact absurd habs (by simp)
      · intro l₁h u du hsplit
        cases l₁h with
        | nil =>
          simp only [List.nil_append, List.cons.injEq] at hsplit
          obtain ⟨he, hnil⟩ := hsplit
          have hd := h2 hnil
          have hx1 : x = u := by
            rw [← hx] at he
            exact (Prod.mk.injEq .. ▸ he).1
          rw [hd, hx1]
        | cons e2 l₁h2 =>
          simp only [List.cons_append, List.cons.injEq] at hsplit
          exact h3 l₁h2 u du hsplit.2

lemma mem_sortTrips {l : List TripRaw} {t : TripRaw} : t ∈ sortTrips l ↔ t ∈ l :=
  (List.perm_insertionSort tripLe l).mem_iff

lemma sorted_sortTrips (l : List TripRaw) : List.Pairwise tripLe (sortTrips l) :=
  List.sorted_insertionSort tripLe l

lemma kept_noInfo {trips : List TripRaw} {t : TripRaw} (h : t ∈ processTime trips) :
    noInfo t = false := by
  rw [mem_processTime] at h
  obtain ⟨ht, hk⟩ := h
  rw [keep_iff] at hk
  obtain ⟨hnot, hdp⟩ := hk
  cases hni : noInfo t with
  | false => rfl
  | true =>
    by_cases hlast : t.W_ID = wCount trips t.HP_ID_Lok
    · exact absurd ⟨hni, hlast⟩ hnot
    · have : dropPerson trips t.HP_ID_Lok = true := dropPerson_iff.mpr ⟨t, ht, rfl, hni, hlast⟩
      rw [hdp] at this
      exact absurd this Bool.false_ne_true

lemma vals_some {t : TripRaw} (h : noInfo t = false) :
    (∃ s, startVal t = some s) ∧ ∃ q, stopVal t = some q := by
  cases hs : hasStart t <;> cases hp : hasStop t <;>
    simp [noInfo, hs, hp] at h ⊢ <;> simp [startVal, stopVal, hs, hp]

lemma kept_wids_nodup {trips : List TripRaw} (hc : Contig trips) {p : Nat}
    (hp : p ∈ trips.map TripRaw.HP_ID_Lok) :
    (((sortTrips (processTime trips)).filter fun x => x.HP_ID_Lok == p).map TripRaw.W_ID).Nodup := by
  have hperm :
      ((sortTrips (processTime trips)).filter fun x => x.HP_ID_Lok == p).Perm
        ((processTime trips).filter fun x => x.HP_ID_Lok == p) :=
    (List.perm_insertionSort tripLe (processTime trips)).filter _
  have hsub :
      (((processTime trips).filter fun x => x.HP_ID_Lok == p).map TripRaw.W_ID).Sublist
        (personWids trips p) := by
    unfold personWids
    exact List.Sublist.map _ (List.Sublist.filter _ (List.filter_sublist trips))
  have hnd : (((processTime trips).filter fun x => x.HP_ID_Lok == p).map TripRaw.W_ID).Nodup :=
    List.Nodup.sublist hsub (nodup_personWids hc hp)
  exact ((hperm.map TripRaw.W_ID).nodup_iff).mpr hnd

lemma no_dup_key {trips : List TripRaw} (hc : Contig trips)
    {k₁ k₂ : List TripRaw} {t u : TripRaw}
    (hdecomp : sortTrips (processTime trips) = k₁ ++ t :: k₂)
    (hu : u ∈ k₁) (hpid : u.HP_ID_Lok = t.HP_ID_Lok) (hwid : u.W_ID = t.W_ID) : False := by
  have htk : t ∈ sortTrips (processTime trips) := by
    rw [hdecomp]
    exact List.mem_append_right _ (List.mem_cons_self t k₂)
  have htt : t ∈ trips := (mem_processTime.mp (mem_sortTrips.mp htk)).1
  have hp : t.HP_ID_Lok ∈ trips.map TripRaw.HP_ID_Lok := List.mem_map.mpr ⟨t, htt, rfl⟩
  have hnd := kept_wids_nodup hc hp
  rw [hdecomp, List.filter_append] at hnd
  have hfilt : List.filter (fun x => x.HP_ID_Lok == t.HP_ID_Lok) (t :: k₂) =
      t :: List.filter (fun x => x.HP_ID_Lok == t.HP_ID_Lok) k₂ := by
    simp [List.filter_cons]
  rw [hfilt, List.map_append, List.map_cons, List.nodup_append] at hnd
  obtain ⟨_, _, hdisj⟩ := hnd
  have humem : u.W_ID ∈ (k₁.filter fun x => x.HP_ID_Lok == t.HP_ID_Lok).map TripRaw.W_ID :=
    List.mem_map.mpr ⟨u, List.mem_filter.mpr ⟨hu, by simp [hpid]⟩, rfl⟩
  rw [hwid] at humem
  exact hdisj humem (List.mem_cons_self _ _)

lemma mem_kept_of_trips {trips : List TripRaw}
    {t v : TripRaw} (ht : t ∈ sortTrips (processTime trips)) (hv : v ∈ trips)
    (hpid : v.HP_ID_Lok = t.HP_ID_Lok) (hvlt : v.W_ID < wCount trips t.HP_ID_Lok) :
    v ∈ sortTrips (processTime trips) := by
  have hkt := (mem_processTime.mp (mem_sortTrips.mp ht)).2
  rw [keep_iff] at hkt
  have hdp : dropPerson trips t.HP_ID_Lok = false := hkt.2
  have hnv : noInfo v = false := by
    cases hni : noInfo v with
    | false => rfl
    | true =>
      have : dropPerson trips t.HP_ID_Lok = true :=
        dropPerson_iff.mpr ⟨v, hv, hpid, hni, by omega⟩
      rw [hdp] at this
      exact absurd this Bool.false_ne_true
  rw [mem_sortTrips, mem_processTime, keep_iff]
  refine ⟨hv, ?_, by rwa [hpid]⟩
  rintro ⟨habs, _⟩
  rw [hnv] at habs
  exact Bool.false_ne_true habs

lemma pred_exists {trips : List TripRaw} (hc : Contig trips)
    {k₁ k₂ : List TripRaw} {t : TripRaw} {w : Nat}
    (hdecomp : sortTrips (processTime trips) = k₁ ++ t :: k₂)
    (hw : t.W_ID = w + 2) :
    ∃ k₁h u, k₁ = k₁h ++ [u] ∧ u.HP_ID_Lok = t.HP_ID_Lok ∧ u.W_ID = w + 1 := by
  have htk : t ∈ sortTrips (processTime trips) := by
    rw [hdecomp]
    exact List.mem_append_right _ (List.mem_cons_self t k₂)
  have htt : t ∈ trips := (mem_processTime.mp (mem_sortTrips.mp htk)).1
  have hb := wid_bounds hc htt
  obtain ⟨v, hv, hvpid, hvwid⟩ := exists_wid hc htt (w + 1) (by omega) (by omega)
  have hvk : v ∈ sortTrips (processTime trips) :=
    mem_kept_of_trips htk hv hvpid (by omega)
  have hpw : List.Pairwise tripLe (k₁ ++ t :: k₂) := by
    rw [← hdecomp]
    exact sorted_sortTrips _
  obtain ⟨hpw1, hpw2, hcross⟩ := List.pairwise_append.mp hpw
  have hvne : v ≠ t := by
    intro he
    rw [he] at hvwid
    omega
  have hvk1 : v ∈ k₁ := by
    rw [hdecomp] at hvk
    rcases List.mem_append.mp hvk with h | h
    · exact h
    · rcases List.mem_cons.mp h with h | h
      · exact absurd h hvne
      · have := (List.pairwise_cons.mp hpw2).1 v h
        unfold tripLe at this
        omega
  rcases List.eq_nil_or_concat k₁ with hnil | ⟨k₁h, u, hcat⟩
  · rw [hnil] at hvk1
    exact absurd hvk1 (List.not_mem_nil v)
  rw [List.concat_eq_append] at hcat
  refine ⟨k₁h, u, hcat, ?_⟩
  have humem : u ∈ k₁ := by
    rw [hcat]
    exact List.mem_append_right _ (List.mem_cons_self u [])
  have hut : tripLe u t := hcross u humem t (List.mem_cons_self t k₂)
  have hvu : tripLe v u ∨ v = u := by
    rw [hcat] at hvk1
    rcases List.mem_append.mp hvk1 with h | h
    · left
      have hpk₁ : List.Pairwise tripLe k₁ := hpw1
      rw [hcat] at hpk₁
      obtain ⟨_, _, hcross2⟩ := List.pairwise_append.mp hpk₁
      exact hcross2 v h u (List.mem_cons_self u [])
    · right
      rcases List.mem_cons.mp h with h | h
      · exact h
      · exact absurd h (List.not_mem_nil v)
  have hup : u.HP_ID_Lok = t.HP_ID_Lok ∧ w + 1 ≤ u.W_ID ∧ u.W_ID ≤ w + 2 := by
    rcases hvu with hvu | hvu
    · unfold tripLe at hvu hut
      omega
    · rw [← hvu]
      unfold tripLe at hut
      omega
  refine ⟨hup.1, ?_⟩
  by_cases hw2 : u.W_ID = w + 2
  · exact absurd (no_dup_key hc hdecomp humem hup.1 (by omega)) (fun h => h)
  · omega

lemma first_iff {trips : List TripRaw} (hc : Contig trips)
    {k₁ k₂ : List TripRaw} {t : TripRaw}
    (hdecomp : sortTrips (processTime trips) = k₁ ++ t :: k₂) :
    t.W_ID = 1 ↔ ∀ u ∈ k₁, u.HP_ID_Lok ≠ t.HP_ID_Lok := by
  have htk : t ∈ sortTrips (processTime trips) := by
    rw [hdecomp]
    exact List.mem_append_right _ (List.mem_cons_self t k₂)
  have htt : t ∈ trips := (mem_processTime.mp (mem_sortTrips.mp htk)).1
  have hpw : List.Pairwise tripLe (k₁ ++ t :: k₂) := by
    rw [← hdecomp]
    exact sorted_sortTrips _
  obtain ⟨hpw1, hpw2, hcross⟩ := List.pairwise_append.mp hpw
  constructor
  · intro h1 u hu hpid
    have huk : u ∈ sortTrips (processTime trips) := by
      rw [hdecomp]
      exact List.mem_append_left _ hu
    have hut : u ∈ trips := (mem_processTime.mp (mem_sortTrips.mp huk)).1
    have hub := wid_bounds hc hut
    have hle : tripLe u t := hcross u hu t (List.mem_cons_self t k₂)
    unfold tripLe at hle
    have huw : u.W_ID = t.W_ID := by omega
    exact no_dup_key hc hdecomp hu hpid huw
  · intro hall
    by_contra hne1
    have hb := wid_bounds hc htt
    have hw : t.W_ID = (t.W_ID - 2) + 2 := by omega
    obtain ⟨k₁h, u, hcat, hupid, _⟩ := pred_exists hc hdecomp hw
    have humem : u ∈ k₁ := by
      rw [hcat]
      exact List.mem_append_right _ (List.mem_cons_self u [])
    exact hall u humem hupid

/-! ### Claim C6 -/

/-- C6 (confirmed): given the spec's leg-index invariant, for every row of the
`addTime` output (timing cleanup, then re-sort by `(personId, legIndex)`, then
the dwell-time pass): a row is its person's first remaining leg exactly when its
leg index is 1, and then its dwell time is its `start` value (which is always
present after cleanup); every other row has an immediately preceding row of the
same person with the preceding leg index, and its dwell time is
`start - stop[previous]`, replaced by null exactly when that difference is
negative. -/
theorem C6_thm (trips : List TripRaw) (hc : Contig trips)
    (l₁ : List (TripRaw × Option Int)) (t : TripRaw) (d : Option Int)
    (l₂ : List (TripRaw × Option Int))
    (h : addTime trips = l₁ ++ (t, d) :: l₂) :
    (t.W_ID = 1 ↔ ∀ e ∈ l₁, (Prod.fst e).HP_ID_Lok ≠ t.HP_ID_Lok) ∧
    (t.W_ID = 1 → d = startVal t ∧ ∃ s, startVal t = some s) ∧
    (t.W_ID ≠ 1 →
      ∃ l₁h u du, l₁ = l₁h ++ [(u, du)] ∧ u.HP_ID_Lok = t.HP_ID_Lok ∧
        u.W_ID + 1 = t.W_ID ∧
        ∃ s q, startVal t = some s ∧ stopVal u = some q ∧
          d = if s - q < 0 then none else some (s - q)) := by
  unfold addTime at h
  obtain ⟨hlist, hnil, hlast⟩ := dwellPass_decomp l₁ none _ t d l₂ h
  have htk : t ∈ sortTrips (processTime trips) := by
    rw [hlist]
    exact List.mem_append_right _ (List.mem_cons_self t _)
  have htp : t ∈ processTime trips := mem_sortTrips.mp htk
  have htt : t ∈ trips := (mem_processTime.mp htp).1
  have hts : ∃ s, startVal t = some s := (vals_some (kept_noInfo htp)).1
  have hmemiff : (∀ u ∈ l₁.map Prod.fst, u.HP_ID_Lok ≠ t.HP_ID_Lok) ↔
      ∀ e ∈ l₁, (Prod.fst e).HP_ID_Lok ≠ t.HP_ID_Lok := by
    constructor
    · intro hall e he
      exact hall e.1 (List.mem_map.mpr ⟨e, he, rfl⟩)
    · intro hall u hu
      obtain ⟨e, he, hfe⟩ := List.mem_map.mp hu
      rw [← hfe]
      exact hall e he
  refine ⟨(first_iff hc hlist).trans hmemiff, ?_, ?_⟩
  · intro h1
    refine ⟨?_, hts⟩
    rcases List.eq_nil_or_concat l₁ with hn | ⟨l₁h, e, hcat⟩
    · rw [hnil hn]
      simp [dwellOf, h1]
    · rw [List.concat_eq_append] at hcat
      obtain ⟨u, du⟩ := e
      rw [hlast l₁h u du hcat]
      simp [dwellOf, h1]
  · intro hne
    have hb := wid_bounds hc htt
    have hw : t.W_ID = (t.W_ID - 2) + 2 := by omega
    obtain ⟨k₁h, u, hcatmap, hupid, huwid⟩ := pred_exists hc hlist hw
    rcases List.eq_nil_or_concat l₁ with hn | ⟨l₁h, e, hcat⟩
    · rw [hn] at hcatmap
      simp at hcatmap
    rw [List.concat_eq_append] at hcat
    obtain ⟨u0, du⟩ := e
    have hu0 : u0 = u := by
      have h1 : (l₁.map Prod.fst).getLast? = some u0 := by
        rw [hcat, List.map_append]
        simp
      have h2 : (l₁.map Prod.fst).getLast? = some u := by
        rw [hcatmap]
        exact List.getLast?_concat _
      rw [h1] at h2
      injection h2
    subst hu0
    have huk : u0 ∈ sortTrips (processTime trips) := by
      rw [hlist]
      refine List.mem_append_left _ ?_
      rw [hcatmap]
      exact List.mem_append_right _ (List.mem_cons_self _ _)
    have hup : u0 ∈ processTime trips := mem_sortTrips.mp huk
    obtain ⟨q, hq⟩ := (vals_some (kept_noInfo hup)).2
    obtain ⟨s, hs⟩ := hts
    refine ⟨l₁h, u0, du, hcat, hupid, by omega, s, q, hs, hq, ?_⟩
    rw [hlast l₁h u0 du hcat]
    simp [dwellOf, hne, hs, hq]

def c6a : TripRaw := ⟨1, 1, 8, 0, 9, 0, 0, 60⟩

def c6b : TripRaw := ⟨1, 2, 10, 0, 11, 0, 0, 60⟩

/-- C6 witness: the theorem applied to a two-leg person with full timing
(starts 480 and 600, stops 540 and 660); the second leg's dwell time is 60. -/
theorem C6_witness :
    (TripRaw.W_ID c6b = 1 ↔
      ∀ e ∈ [(c6a, (some 480 : Option Int))], (Prod.fst e).HP_ID_Lok ≠ TripRaw.HP_ID_Lok c6b) ∧
    (TripRaw.W_ID c6b = 1 → (some 60 : Option Int) = startVal c6b ∧ ∃ s, startVal c6b = some s) ∧
    (TripRaw.W_ID c6b ≠ 1 →
      ∃ l₁h u du, [(c6a, (some 480 : Option Int))] = l₁h ++ [(u, du)] ∧
        u.HP_ID_Lok = TripRaw.HP_ID_Lok c6b ∧ u.W_ID + 1 = TripRaw.W_ID c6b ∧
        ∃ s q, startVal c6b = some s ∧ stopVal u = some q ∧
          (some 60 : Option Int) = if s - q < 0 then none else some (s - q)) :=
  C6_thm [c6a, c6b] (by decide) [(c6a, some 480)] c6b (some 60) [] (by decide)

/-! ### 6. Activity Chain Aggregator, Dwell Time Mixture Fitter keys, Serializer

A labelled trip row as read by `getActivityChains` / `getDwellTimeDists`:
person ID and the `StartLoc` / `DestLoc` columns produced by the labeler
(missing when the labeler could not assign a letter). -/

structure TripL where
  pid : Nat
  startLoc : Option Char
  destLoc : Option Char
deriving DecidableEq, Repr

def alphabet : List Char := ['H', 'W', 'B', 'S', 'P', 'O']

/-- The chain string of one person's legs (in leg order):
`grp['StartLoc'].sum() + grp['DestLoc'].last()`.  The pandas string sum skips
missing values, and `last()` takes the last non-missing destination; when every
destination is missing the chain is missing (`str + NaN` is `NaN`). -/
def chainOf (legs : List TripL) : Option String :=
  match (legs.filterMap TripL.destLoc).getLast? with
  | none => none
  | some d => some (String.mk ((legs.filterMap TripL.startLoc) ++ [d]))

/-- The person IDs of a trips table, each once (the groupby keys). -/
def pids (trips : List TripL) : List Nat := (trips.map TripL.pid).dedup

/-- The legs of one person, in table order. -/
def legsOf (trips : List TripL) (p : Nat) : List TripL :=
  trips.filter fun t => t.pid == p

/-- The per-person chain table built from trips (persons whose chain is
missing carry no entry). -/
def chainTable (trips : List TripL) : List (Nat × String) :=
  (pids trips).filterMap fun p => (chainOf (legsOf trips p)).map fun s => (p, s)

/-- The chain table of `getActivityChains`: the trips-derived table plus the
synthetic "H" entry appended for every person with `mobil == 0`. -/
def activityChainsWithNotMobile (trips : List TripL) (persons : List Person) :
    List (Nat × String) :=
  chainTable trips ++ (persons.filter fun q => q.mobil == 0).map fun q => (q.HP_ID_Lok, "H")

/-- Descending order on `(count, chain)` pairs as produced by pandas
`value_counts` (counts descending; the tie order among equal counts is not
specified by the source, modelled as stable). -/
def vcGe (a b : String × Nat) : Prop := b.2 ≤ a.2

instance : DecidableRel vcGe := fun a b => by
  unfold vcGe
  infer_instance

instance : IsTotal (String × Nat) vcGe :=
  ⟨by intro a b; unfold vcGe; omega⟩

instance : IsTrans (String × Nat) vcGe :=
  ⟨by intro a b c; unfold vcGe; omega⟩

/-- Pandas `value_counts`: each distinct value with its occurrence count, counts
descending. -/
def valueCounts (l : List String) : List (String × Nat) :=
  List.insertionSort vcGe (l.dedup.map fun c => (c, l.count c))

/-- The keys inserted into the `gaussians` dictionary by `getDwellTimeDists`:
for every cohort (same traversal as `forAllGrps`), the chains of the cohort's
`value_counts` table are processed in order and the loop breaks at the first
count below 30; each processed chain contributes the key
`(weekday, homogeneity, mobility, age, chain)`.  The fitted mixture values are
external library output and are not modelled.  Note the chain table here is
built from trips only — the synthetic not-mobile "H" entries are absent. -/
def getDwellTimeDists (trips : List TripL) (persons : List Person) :
    List ((Option Nat × String × String × String) × String) :=
  (forAllGrps persons).flatMap fun c =>
    match c with
    | (wd, hom, mob, age, ids) =>
      ((valueCounts (((chainTable trips).filter fun e => ids.contains e.1).map Prod.snd)).takeWhile
        fun e => decide (30 ≤ e.2)).map fun e => ((wd, hom, mob, age), e.1)

/-- The long activity names (`lngNameMap`); letters outside the map raise a
`KeyError` in the source, modelled as `none`. -/
def lngName (c : Char) : Option String :=
  if c = 'W' then some "WORK"
  else if c = 'B' then some "BUSINESS"
  else if c = 'S' then some "SCHOOL"
  else if c = 'P' then some "SHOPPING"
  else if c = 'O' then some "OTHER"
  else if c = 'H' then some "HOME"
  else none

def chainStrToListAux : List Char → Option (List String)
  | [] => some []
  | c :: rest =>
    match lngName c, chainStrToListAux rest with
    | some s, some l => some (s :: l)
    | _, _ => none

/-- The function `chainStrToList`: a chain string as the list of long activity names. -/
def chainStrToList (s : String) : Option (List String) := chainStrToListAux s.data

/-- One `activityChains` record of the serialized output. -/
structure ChainRec (α : Type) where
  chain : Option (List String)
  weight : Nat
  gaussianMixture : Option α
deriving DecidableEq, Repr

/-- One cohort record of `getActivityChains`: the four axis values, the sample
size, and the `Group chains` table as `(count, chain)` pairs in table order
(the order in which the serializer's `zip(weights, chains)` yields them). -/
structure GroupRec where
  weekday : Option Nat
  homGrp : String
  mobGrp : String
  ageGrp : String
  count : Nat
  chains : List (Nat × String)
deriving DecidableEq, Repr

/-- One cohort record of the serialized `ActivityGroups.json`. -/
structure OutRec (α : Type) where
  weekday : Option String
  homogenousGroup : String
  mobilityGroup : String
  age : String
  sampleSize : Nat
  activityChains : List (ChainRec α)
deriving DecidableEq, Repr

/-- The function `getActivityChains`: one `GroupRec` per cohort of the `forAllGrps`
traversal.  The sample-size field models `activityChains.index.intersection(ids).size`;
no claim depends on it. -/
def getActivityChains (trips : List TripL) (persons : List Person) : List GroupRec :=
  (forAllGrps persons).map fun c =>
    match c with
    | (wd, hom, mob, age, ids) =>
      { weekday := wd, homGrp := hom, mobGrp := mob, ageGrp := age,
        count := ((((activityChainsWithNotMobile trips persons).map Prod.fst).filter
          fun i => ids.contains i).dedup).length,
        chains := (valueCounts (((activityChainsWithNotMobile trips persons).filter
          fun e => ids.contains e.1).map Prod.snd)).map fun e => (e.2, e.1) }

/-- Python's descending tuple order on `(count, chain)` pairs:
`sorted(zip(weights, chains), reverse=True)` sorts by count descending and
breaks count ties by the chain string descending (code-point lexicographic). -/
def pairGe (a b : Nat × String) : Prop :=
  b.1 < a.1 ∨ (b.1 = a.1 ∧ b.2.data ≤ a.2.data)

instance : DecidableRel pairGe := fun a b => by
  unfold pairGe
  infer_instance

instance : IsTotal (Nat × String) pairGe :=
  ⟨by
    intro a b
    unfold pairGe
    rcases Nat.lt_trichotomy a.1 b.1 with h | h | h
    · exact Or.inr (Or.inl h)
    · rcases le_total a.2.data b.2.data with h2 | h2
      · exact Or.inr (Or.inr ⟨h, h2⟩)
      · exact Or.inl (Or.inr ⟨h.symm, h2⟩)
    · exact Or.inl (Or.inl h)⟩

instance : IsTrans (Nat × String) pairGe :=
  ⟨by
    intro a b c hab hbc
    unfold pairGe at hab hbc ⊢
    rcases hab with h1 | ⟨h1, h2⟩ <;> rcases hbc with h3 | ⟨h3, h4⟩
    · exact Or.inl (by omega)
    · exact Or.inl (by omega)
    · exact Or.inl (by omega)
    · exact Or.inr ⟨by omega, le_trans h4 h2⟩⟩

/-- The chain ranking of the serializer: `sorted(zip(weights, chains),
reverse=True)`. -/
def rankPairs (tbl : List (Nat × String)) : List (Nat × String) :=
  List.insertionSort pairGe tbl

/-- Modelled from the claim (C7), for comparison with `rankPairs`: sort by
count descending only, keeping count ties in the original table order. -/
def claimGe (a b : Nat × String) : Prop := b.1 ≤ a.1

instance : DecidableRel claimGe := fun a b => by
  unfold claimGe
  infer_instance

def rankPairsClaim (tbl : List (Nat × String)) : List (Nat × String) :=
  List.insertionSort claimGe tbl

/-- Whether a chain's final letter denotes HOME or OTHER (`x[-1] in ["H", "O"]`;
the empty string, which would raise in Python, passes for no letter). -/
def lastIsHO (s : String) : Bool :=
  match s.data.getLast? with
  | some c => c == 'H' || c == 'O'
  | none => false

/-- The serializer's retention test: count at least 30 and final letter HOME or
OTHER. -/
def emitP (e : Nat × String) : Bool := decide (30 ≤ e.1) && lastIsHO e.2

/-- One emitted chain record: the long-name chain, its weight, and the mixture
looked up by the five-part key — except that the degenerate "H" chain always
gets a null mixture. -/
def mkChainRec {α : Type} (gaussians : List ((Option Nat × String × String × String × String) × α))
    (g : GroupRec) (e : Nat × String) : ChainRec α :=
  { chain := chainStrToList e.2, weight := e.1,
    gaussianMixture :=
      if e.2 = "H" then none
      else List.lookup (g.weekday, g.homGrp, g.mobGrp, g.ageGrp, e.2) gaussians }

/-- The weekday output abbreviation (`wdMap`); codes outside the map raise a
`KeyError` in the source, modelled as `none`. -/
def wdName : Option Nat → Option String
  | some 1 => some "mo"
  | some 2 => some "tu"
  | some 3 => some "we"
  | some 4 => some "th"
  | some 5 => some "fr"
  | some 6 => some "sa"
  | some 7 => some "so"
  | some 8 => some "ho"
  | none => some "undefined"
  | some _ => none

/-- The function `safeActivityGroups`: for each cohort record, rank its chain table with
`sorted(..., reverse=True)`, retain chains with count at least 30 ending in
HOME or OTHER, attach the looked-up mixture (null for "H"), and emit the
cohort's output record. -/
def safeActivityGroups {α : Type}
    (gaussians : List ((Option Nat × String × String × String × String) × α))
    (groups : List GroupRec) : List (OutRec α) :=
  groups.map fun g =>
    { weekday := wdName g.weekday, homogenousGroup := g.homGrp, mobilityGroup := g.mobGrp,
      age := g.ageGrp, sampleSize := g.count,
      activityChains := ((rankPairs g.chains).filter emitP).map (mkChainRec gaussians g) }

lemma filterMap_length_all_some {α β : Type} (f : α → Option β) :
    ∀ l : List α, (∀ t ∈ l, f t ≠ none) → (l.filterMap f).length = l.length := by
  intro l
  induction l with
  | nil => intro _; rfl
  | cons t rest ih =>
    intro hall
    cases hft : f t with
    | none => exact absurd hft (hall t (List.mem_cons_self t rest))
    | some b =>
      rw [List.filterMap_cons_some hft, List.length_cons, List.length_cons,
        ih fun u hu => hall u (List.mem_cons_of_mem t hu)]

lemma chainTable_elim {trips : List TripL} {p : Nat} {s : String}
    (h : (p, s) ∈ chainTable trips) :
    ∃ d, ((legsOf trips p).filterMap TripL.destLoc).getLast? = some d ∧
      s = String.mk (((legsOf trips p).filterMap TripL.startLoc) ++ [d]) ∧
      p ∈ pids trips := by
  unfold chainTable at h
  rw [List.mem_filterMap] at h
  obtain ⟨p0, hp0, hmap⟩ := h
  rw [Option.map_eq_some'] at hmap
  obtain ⟨a, ha, hpa⟩ := hmap
  obtain ⟨hp1, hp2⟩ := Prod.mk.injEq .. ▸ hpa
  subst hp1
  unfold chainOf at ha
  cases hlast : ((legsOf trips p0).filterMap TripL.destLoc).getLast? with
  | none => rw [hlast] at ha; exact absurd ha (by simp)
  | some d =>
    rw [hlast] at ha
    refine ⟨d, rfl, ?_, hp0⟩
    rw [← hp2]
    exact (Option.some.inj ha).symm

lemma legsOf_nonempty {trips : List TripL} {p : Nat} (hp : p ∈ pids trips) :
    1 ≤ (legsOf trips p).length := by
  unfold pids at hp
  rw [List.mem_dedup, List.mem_map] at hp
  obtain ⟨t, ht, htp⟩ := hp
  have : t ∈ legsOf trips p := List.mem_filter.mpr ⟨ht, by simp [htp]⟩
  cases hl : legsOf trips p with
  | nil => rw [hl] at this; exact absurd this (List.not_mem_nil t)
  | cons a l => simp [hl]

lemma chainTable_spec {trips : List TripL}
    (hdef : ∀ t ∈ trips, t.startLoc ≠ none ∧ t.destLoc ≠ none) {p : Nat} {s : String}
    (h : (p, s) ∈ chainTable trips) :
    s.length = (legsOf trips p).length + 1 ∧ 1 ≤ (legsOf trips p).length := by
  obtain ⟨d, _, hs, hp⟩ := chainTable_elim h
  have hlegs : ∀ u ∈ legsOf trips p, u ∈ trips := fun u hu => (List.mem_filter.mp hu).1
  have hlen : ((legsOf trips p).filterMap TripL.startLoc).length = (legsOf trips p).length :=
    filterMap_length_all_some _ _ fun u hu => (hdef u (hlegs u hu)).1
  constructor
  · rw [hs]
    show (((legsOf trips p).filterMap TripL.startLoc) ++ [d]).length = _
    rw [List.length_append, hlen]
    rfl
  · exact legsOf_nonempty hp

lemma chainTable_alpha {trips : List TripL}
    (hdef : ∀ t ∈ trips,
      (∃ c ∈ alphabet, t.startLoc = some c) ∧ ∃ c ∈ alphabet, t.destLoc = some c)
    {p : Nat} {s : String} (h : (p, s) ∈ chainTable trips) :
    ∀ c ∈ s.data, c ∈ alphabet := by
  obtain ⟨d, hd, hs, _⟩ := chainTable_elim h
  have hlegs : ∀ u ∈ legsOf trips p, u ∈ trips := fun u hu => (List.mem_filter.mp hu).1
  intro c hc
  rw [hs] at hc
  have hc2 : c ∈ ((legsOf trips p).filterMap TripL.startLoc) ++ [d] := hc
  rcases List.mem_append.mp hc2 with hc3 | hc3
  · rw [List.mem_filterMap] at hc3
    obtain ⟨u, hu, huc⟩ := hc3
    obtain ⟨c0, hc0A, hc0⟩ := (hdef u (hlegs u hu)).1
    rw [hc0] at huc
    rw [← Option.some.inj huc]
    exact hc0A
  · rcases List.mem_cons.mp hc3 with hc4 | hc4
    · subst hc4
      obtain ⟨ys, hys⟩ := List.getLast?_eq_some_iff.mp hd
      have hdm : c ∈ (legsOf trips p).filterMap TripL.destLoc := by
        rw [hys]
        exact List.mem_append_right _ (List.mem_cons_self c [])
      rw [List.mem_filterMap] at hdm
      obtain ⟨u, hu, huc⟩ := hdm
      obtain ⟨c0, hc0A, hc0⟩ := (hdef u (hlegs u hu)).2
      rw [hc0] at huc
      rw [← Option.some.inj huc]
      exact hc0A
    · exact absurd hc4 (List.not_mem_nil c)

/-! ### Claim C8 -/

/-- C8 counterexample: a person with two trips whose second leg has an
undefined start label.  The pandas string sum skips the missing label, so the
chain is "HH" of length 2, not leg count + 1 = 3. -/
theorem C8_cex :
    chainTable [⟨1, some 'H', some 'O'⟩, ⟨1, none, some 'H'⟩] = [(1, "HH")] ∧
    (legsOf [⟨1, some 'H', some 'O'⟩, ⟨1, none, some 'H'⟩] 1).length = 2 ∧
    ("HH" : String).length ≠
      (legsOf [⟨1, some 'H', some 'O'⟩, ⟨1, none, some 'H'⟩] 1).length + 1 := by
  refine ⟨by decide, by decide, by decide⟩

/-- C8 (amended): for a person all of whose legs carry defined start and
destination labels drawn from the labeler's alphabet {H,W,B,S,P,O}, the chain
(startActivity of every leg in leg order plus destActivity of the last leg) has
length equal to that person's leg count + 1 and uses only alphabet letters; a
leg with an undefined label contributes nothing to the concatenation and
shortens the chain.  Every person marked not-mobile receives the chain "H" of
length 1. -/
theorem C8_thm (trips : List TripL) (persons : List Person)
    (hdef : ∀ t ∈ trips,
      (∃ c ∈ alphabet, t.startLoc = some c) ∧ ∃ c ∈ alphabet, t.destLoc = some c) :
    (∀ p s, (p, s) ∈ chainTable trips →
      s.length = (legsOf trips p).length + 1 ∧ 1 ≤ (legsOf trips p).length ∧
        ∀ c ∈ s.data, c ∈ alphabet) ∧
    (∀ q ∈ persons, q.mobil = 0 →
      (q.HP_ID_Lok, "H") ∈ activityChainsWithNotMobile trips persons ∧
        ("H" : String).length = 1) := by
  have hdef' : ∀ t ∈ trips, t.startLoc ≠ none ∧ t.destLoc ≠ none := by
    intro t ht
    obtain ⟨⟨c1, _, hc1⟩, ⟨c2, _, hc2⟩⟩ := hdef t ht
    rw [hc1, hc2]
    simp
  constructor
  · intro p s h
    obtain ⟨h1, h2⟩ := chainTable_spec hdef' h
    exact ⟨h1, h2, chainTable_alpha hdef h⟩
  · intro q hq hq0
    refine ⟨?_, rfl⟩
    unfold activityChainsWithNotMobile
    refine List.mem_append_right _ ?_
    exact List.mem_map.mpr ⟨q, List.mem_filter.mpr ⟨hq, by simp [hq0]⟩, rfl⟩

def c8w : List TripL := [⟨1, some 'H', some 'W'⟩, ⟨1, some 'W', some 'H'⟩]

def c8persons : List Person := [⟨5, 1, 0, 1, 1, 1, 0⟩]

/-- C8 witness: the amended theorem applied to a fully labelled two-leg person
("HWH") and a not-mobile person. -/
theorem C8_witness :
    (("HWH" : String).length = (legsOf c8w 1).length + 1 ∧ 1 ≤ (legsOf c8w 1).length ∧
      ∀ c ∈ ("HWH" : String).data, c ∈ alphabet) ∧
    ((Person.HP_ID_Lok ⟨5, 1, 0, 1, 1, 1, 0⟩, "H") ∈ activityChainsWithNotMobile c8w c8persons ∧
      ("H" : String).length = 1) :=
  ⟨(C8_thm c8w c8persons (by decide)).1 1 "HWH" (by decide),
   (C8_thm c8w c8persons (by decide)).2 ⟨5, 1, 0, 1, 1, 1, 0⟩ (by decide) rfl⟩

/-! ### Claim C7 -/

/-- C7 counterexample: a cohort whose chain table holds "HOH" and "HWH", both
with count 30, in that original order.  The serializer's
`sorted(zip(weights, chains), reverse=True)` breaks the count tie by the chain
string descending and emits "HWH" before "HOH" — not the original table order
the claim requires. -/
theorem C7_cex :
    ((safeActivityGroups ([] : List ((Option Nat × String × String × String × String) × Unit))
        [⟨none, "undefined", "undefined", "undefined", 60, [(30, "HOH"), (30, "HWH")]⟩]).map
      fun r => r.activityChains.map fun cr => (cr.weight, cr.chain)) =
      [[(30, some ["HOME", "WORK", "HOME"]), (30, some ["HOME", "OTHER", "HOME"])]] ∧
    rankPairs [(30, "HOH"), (30, "HWH")] = [(30, "HWH"), (30, "HOH")] ∧
    rankPairsClaim [(30, "HOH"), (30, "HWH")] = [(30, "HOH"), (30, "HWH")] ∧
    ([(30, "HWH"), (30, "HOH")] : List (Nat × String)) ≠ [(30, "HOH"), (30, "HWH")] := by
  refine ⟨by decide, by decide, by decide, by decide⟩

/-- C7 (amended): every emitted cohort record's activity-chain list is the
cohort's chain table sorted by count descending with count ties broken by the
chain string descending (not original table order), retaining exactly the
entries with count at least 30 whose final letter is H or O; the emitted list
is the order-preserving image of that ranked, filtered pair list, so the
serialized ranking order is exactly this one. -/
theorem C7_thm {α : Type}
    (gaussians : List ((Option Nat × String × String × String × String) × α))
    (groups : List GroupRec) (r : OutRec α) (h : r ∈ safeActivityGroups gaussians groups) :
    ∃ g ∈ groups,
      r.activityChains = ((rankPairs g.chains).filter emitP).map (mkChainRec gaussians g) ∧
      List.Pairwise pairGe ((rankPairs g.chains).filter emitP) ∧
      ∀ e : Nat × String,
        e ∈ (rankPairs g.chains).filter emitP ↔
          e ∈ g.chains ∧ 30 ≤ e.1 ∧ lastIsHO e.2 = true := by
  unfold safeActivityGroups at h
  rw [List.mem_map] at h
  obtain ⟨g, hg, hr⟩ := h
  refine ⟨g, hg, ?_, ?_, ?_⟩
  · rw [← hr]
  · exact List.Pairwise.sublist (List.filter_sublist _) (List.sorted_insertionSort pairGe g.chains)
  · intro e
    rw [List.mem_filter]
    unfold rankPairs
    rw [List.mem_insertionSort]
    unfold emitP
    rw [Bool.and_eq_true, decide_eq_true_eq]


/-- C7 witness: the amended theorem applied to the concrete cohort of the
counterexample input. -/
theorem C7_witness :
    ∃ g ∈ [(⟨none, "undefined", "undefined", "undefined", 60,
        [(30, "HOH"), (30, "HWH")]⟩ : GroupRec)],
      (OutRec.activityChains
          ⟨some "undefined", "undefined", "undefined", "undefined", 60,
            [⟨some ["HOME", "WORK", "HOME"], 30, none⟩,
             ⟨some ["HOME", "OTHER", "HOME"], 30, none⟩]⟩ : List (ChainRec Unit)) =
        ((rankPairs g.chains).filter emitP).map
          (mkChainRec ([] : List ((Option Nat × String × String × String × String) × Unit)) g) ∧
      List.Pairwise pairGe ((rankPairs g.chains).filter emitP) ∧
      ∀ e : Nat × String,
        e ∈ (rankPairs g.chains).filter emitP ↔
          e ∈ g.chains ∧ 30 ≤ e.1 ∧ lastIsHO e.2 = true :=
  C7_thm ([] : List ((Option Nat × String × String × String × String) × Unit))
    [⟨none, "undefined", "undefined", "undefined", 60, [(30, "HOH"), (30, "HWH")]⟩]
    ⟨some "undefined", "undefined", "undefined", "undefined", 60,
      [⟨some ["HOME", "WORK", "HOME"], 30, none⟩, ⟨some ["HOME", "OTHER", "HOME"], 30, none⟩]⟩
    (by decide)

/-! ### Claim C10 -/

lemma lngName_HOME {c : Char} (h : lngName c = some "HOME") : c = 'H' := by
  unfold lngName at h
  split_ifs at h with h1 h2 h3 h4 h5 h6
  · exact absurd (Option.some.inj h) (by decide)
  · exact absurd (Option.some.inj h) (by decide)
  · exact absurd (Option.some.inj h) (by decide)
  · exact absurd (Option.some.inj h) (by decide)
  · exact absurd (Option.some.inj h) (by decide)
  · exact h6

lemma chainStrToListAux_nil {l : List Char} (h : chainStrToListAux l = some []) : l = [] := by
  cases l with
  | nil => rfl
  | cons c rest =>
    unfold chainStrToListAux at h
    cases h1 : lngName c <;> cases h2 : chainStrToListAux rest <;> rw [h1, h2] at h <;>
      simp at h

lemma chainStrToListAux_HOME {l : List Char} (h : chainStrToListAux l = some ["HOME"]) :
    l = ['H'] := by
  cases l with
  | nil =>
    unfold chainStrToListAux at h
    exact absurd (Option.some.inj h) (by decide)
  | cons c rest =>
    unfold chainStrToListAux at h
    cases h1 : lngName c <;> cases h2 : chainStrToListAux rest <;> rw [h1, h2] at h <;>
      simp at h
    obtain ⟨hs, hrest⟩ := h
    have hrnil : rest = [] := chainStrToListAux_nil (h2.trans (by rw [hrest]))
    have hch : c = 'H' := lngName_HOME (h1.trans (by rw [hs]))
    rw [hrnil, hch]

lemma chainStrToList_HOME {s : String} (h : chainStrToList s = some ["HOME"]) : s = "H" := by
  have hd : s.data = ['H'] := chainStrToListAux_HOME h
  exact String.ext (by rw [hd])

/-- C10 (confirmed): the chain table used by `getDwellTimeDists` is built from
trips only (the synthetic not-mobile "H" entries are absent); when every trip
carries defined labels, every chain in that table has length at least 2, so no
key with chain "H" is ever inserted into the gaussians map; and every chain
record the serializer emits for the "H" chain carries a null mixture. -/
theorem C10_thm {α : Type} (trips : List TripL) (persons : List Person)
    (hdef : ∀ t ∈ trips, t.startLoc ≠ none ∧ t.destLoc ≠ none) :
    (∀ k ∈ getDwellTimeDists trips persons, k.2 ≠ "H") ∧
    (∀ (gaussians : List ((Option Nat × String × String × String × String) × α))
      (groups : List GroupRec) (r : OutRec α) (cr : ChainRec α),
      r ∈ safeActivityGroups gaussians groups → cr ∈ r.activityChains →
      cr.chain = some ["HOME"] → cr.gaussianMixture = none) := by
  constructor
  · intro k hk
    unfold getDwellTimeDists at hk
    rw [List.mem_flatMap] at hk
    obtain ⟨c, hcmem, hk⟩ := hk
    obtain ⟨wd, hom, mob, age, ids⟩ := c
    rw [List.mem_map] at hk
    obtain ⟨e, hetw, hke⟩ := hk
    have he : e ∈ valueCounts (((chainTable trips).filter fun x => ids.contains x.1).map
        Prod.snd) :=
      (List.takeWhile_prefix _).sublist.subset hetw
    unfold valueCounts at he
    rw [List.mem_insertionSort, List.mem_map] at he
    obtain ⟨c0, hc0, hec0⟩ := he
    rw [List.mem_dedup, List.mem_map] at hc0
    obtain ⟨pr, hpr, hprc0⟩ := hc0
    have hprt : pr ∈ chainTable trips := (List.mem_filter.mp hpr).1
    have hsp : (pr.1, pr.2) ∈ chainTable trips := by
      rw [Prod.mk.eta]
      exact hprt
    obtain ⟨hlen, hpos⟩ := chainTable_spec hdef hsp
    have hk2 : k.2 = pr.2 := by
      rw [← hke, ← hec0, ← hprc0]
    rw [hk2]
    intro habs
    rw [habs] at hlen
    have hone : ("H" : String).length = 1 := rfl
    omega
  · intro gaussians groups r cr hr hcr hchain
    unfold safeActivityGroups at hr
    rw [List.mem_map] at hr
    obtain ⟨g, hg, hgr⟩ := hr
    rw [← hgr] at hcr
    simp only [List.mem_map] at hcr
    obtain ⟨e, he, hcre⟩ := hcr
    rw [← hcre] at hchain ⊢
    have hH : e.2 = "H" := chainStrToList_HOME hchain
    unfold mkChainRec
    rw [if_pos hH]

/-- C10 witness: the theorem applied to the concrete fully labelled trips table
and persons table. -/
theorem C10_witness :
    (∀ k ∈ getDwellTimeDists c8w c8persons, k.2 ≠ "H") ∧
    (∀ (gaussians : List ((Option Nat × String × String × String × String) × Unit))
      (groups : List GroupRec) (r : OutRec Unit) (cr : ChainRec Unit),
      r ∈ safeActivityGroups gaussians groups → cr ∈ r.activityChains →
      cr.chain = some ["HOME"] → cr.gaussianMixture = none) :=
  @C10_thm Unit c8w c8persons (by decide)

end Omod
